import Mathlib

/-
Verification development for the header-chain validation and storage engine
in lib/blockchain.py (Electrum fork).  Python code is shallowly embedded:
bytes are List Nat (each < 256 in practice), Python exceptions are an
explicit PyErr error monad (Except), file contents are List Nat, and the
helpers imported from lib/bitcoin.py / the Python standard library
(str_to_hash, hash_to_str, ser_char_vector, read_vector_size, base64,
struct.pack/unpack) are modelled from the spec since lib/bitcoin.py is not
part of the sources.
-/

/-- Python exceptions raised by the embedded code.  The code raises plain
BaseException with message strings; we distinguish the raise sites by
constructor.  valueError stands for any TypeError/ValueError/binascii
error raised while converting malformed field values (hex, base64,
struct.pack bounds). -/
inductive PyErr where
  | typeError
  | attributeError
  | indexError
  | valueError
  | assertionError
  | fileNotFound
  | structError
  | outOfFile
  | prevHashMismatch
  | insufficientWork
  | equihashInvalid
  | badBitsN
  | badBitsBase
  deriving DecidableEq, Repr

/-- Value of one hexadecimal digit character (accepts both cases), as in
Python int(c, 16) / bytes.fromhex. -/
def hexDigitVal (c : Char) : Option Nat :=
  if '0' ≤ c ∧ c ≤ '9' then some (c.toNat - '0'.toNat)
  else if 'a' ≤ c ∧ c ≤ 'f' then some (c.toNat - 'a'.toNat + 10)
  else if 'A' ≤ c ∧ c ≤ 'F' then some (c.toNat - 'A'.toNat + 10)
  else none

/-- Decode a hex string (list of characters) into bytes; none on an odd
length or a non-hex character, as bytes.fromhex raises ValueError. -/
def hexDecode : List Char → Option (List Nat)
  | [] => some []
  | [_] => none
  | a :: b :: rest => do
    let hi ← hexDigitVal a
    let lo ← hexDigitVal b
    let r ← hexDecode rest
    pure ((hi * 16 + lo) :: r)

/-- Lowercase hex digit character for a value < 16. -/
def hexDigitChr (n : Nat) : Char :=
  if n < 10 then Char.ofNat ('0'.toNat + n) else Char.ofNat ('a'.toNat + n - 10)

/-- Encode bytes as a lowercase hex character list, as bytes.hex(). -/
def hexEncodeChars : List Nat → List Char
  | [] => []
  | b :: rest => hexDigitChr (b / 16 % 16) :: hexDigitChr (b % 16) :: hexEncodeChars rest

/-- Modelled from the spec: str_to_hash (lib/bitcoin.py, not in src) turns a
hex string into the underlying bytes with byte order reversed
(little-endian-display convention); fails on malformed hex. -/
def str_to_hash (s : String) : Option (List Nat) :=
  (hexDecode s.data).map List.reverse

/-- Modelled from the spec: hash_to_str (lib/bitcoin.py, not in src) shows
bytes as a hex string with byte order reversed. -/
def hash_to_str (b : List Nat) : String :=
  String.mk (hexEncodeChars b.reverse)

/-- Base64 alphabet value of one character; none for a non-alphabet
character (including the padding sign). -/
def b64val (c : Char) : Option Nat :=
  if 'A' ≤ c ∧ c ≤ 'Z' then some (c.toNat - 'A'.toNat)
  else if 'a' ≤ c ∧ c ≤ 'z' then some (c.toNat - 'a'.toNat + 26)
  else if '0' ≤ c ∧ c ≤ '9' then some (c.toNat - '0'.toNat + 52)
  else if c = '+' then some 62
  else if c = '/' then some 63
  else none

/-- Base64 alphabet character for a value < 64. -/
def b64chr (n : Nat) : Char :=
  if n < 26 then Char.ofNat ('A'.toNat + n)
  else if n < 52 then Char.ofNat ('a'.toNat + n - 26)
  else if n < 62 then Char.ofNat ('0'.toNat + n - 52)
  else if n = 62 then '+'
  else '/'

/-- Modelled from the Python standard library: strict base64 decoding of a
character list in 4-character groups with trailing padding; none on
malformed input (base64.b64decode raises binascii.Error). -/
def b64decodeChars : List Char → Option (List Nat)
  | [] => some []
  | a :: b :: c :: d :: rest =>
    if rest.isEmpty ∧ d = '=' then
      if c = '=' then do
        let v1 ← b64val a
        let v2 ← b64val b
        pure [(v1 <<< 2) ||| (v2 >>> 4)]
      else do
        let v1 ← b64val a
        let v2 ← b64val b
        let v3 ← b64val c
        pure [(v1 <<< 2) ||| (v2 >>> 4), ((v2 % 16) <<< 4) ||| (v3 >>> 2)]
    else do
      let v1 ← b64val a
      let v2 ← b64val b
      let v3 ← b64val c
      let v4 ← b64val d
      let r ← b64decodeChars rest
      pure ([(v1 <<< 2) ||| (v2 >>> 4), ((v2 % 16) <<< 4) ||| (v3 >>> 2),
             ((v3 % 4) <<< 6) ||| v4] ++ r)
  | _ => none

/-- Modelled from the Python standard library: base64 encoding of a byte
list, 3 bytes to 4 characters with trailing padding. -/
def b64encodeBytes : List Nat → List Char
  | [] => []
  | [a] => [b64chr (a >>> 2), b64chr ((a % 4) <<< 4), '=', '=']
  | [a, b] => [b64chr (a >>> 2), b64chr (((a % 4) <<< 4) ||| (b >>> 4)),
               b64chr ((b % 16) <<< 2), '=']
  | a :: b :: c :: rest =>
      [b64chr (a >>> 2), b64chr (((a % 4) <<< 4) ||| (b >>> 4)),
       b64chr (((b % 16) <<< 2) ||| (c >>> 6)), b64chr (c % 64)] ++ b64encodeBytes rest

/-- base64.b64decode on a string. -/
def b64decode (s : String) : Option (List Nat) :=
  b64decodeChars s.data

/-- base64.b64encode producing a string. -/
def b64encode (l : List Nat) : String :=
  String.mk (b64encodeBytes l)

/-- Little-endian 4-byte encoding of n % 2^32, the byte layout produced by
struct.pack of a 32-bit value. -/
def le4 (n : Nat) : List Nat :=
  [n % 256, n / 256 % 256, n / 65536 % 256, n / 16777216 % 256]

/-- struct.pack of a signed 32-bit little-endian integer; none when out of
range (struct.error). -/
def packInt32LE (n : Int) : Option (List Nat) :=
  if -2147483648 ≤ n ∧ n < 2147483648 then some (le4 (n % 4294967296).toNat) else none

/-- struct.pack of an unsigned 32-bit little-endian integer; none when out
of range (struct.error). -/
def packUInt32LE (n : Int) : Option (List Nat) :=
  if 0 ≤ n ∧ n < 4294967296 then some (le4 n.toNat) else none

/-- struct.unpack of an unsigned 32-bit little-endian integer; none when
fewer than 4 bytes are available (struct.error). -/
def unpack4 : List Nat → Option Nat
  | [a, b, c, d] => some (a + 256 * b + 65536 * c + 16777216 * d)
  | _ => none

/-- Modelled from the spec: the compact variable-length size field used as
the proof-blob size prefix (the blockchain's native variable-length
integer encoding). -/
def compactSize (n : Nat) : List Nat :=
  if n < 253 then [n]
  else if n < 65536 then [253, n % 256, n / 256]
  else if n < 4294967296 then
    [254, n % 256, n / 256 % 256, n / 65536 % 256, n / 16777216 % 256]
  else
    [255, n % 256, n / 256 % 256, n / 65536 % 256, n / 16777216 % 256,
     n / 4294967296 % 256, n / 1099511627776 % 256, n / 281474976710656 % 256,
     n / 72057594037927936 % 256]

/-- Modelled from the spec: read_vector_size (lib/bitcoin.py, not in src)
reads the compact size prefix at the head of the remaining bytes and
returns the size together with the number of prefix bytes consumed; none
when the stream ends inside the prefix (the read raises). -/
def parseVarint : List Nat → Option (Nat × Nat)
  | [] => none
  | b :: rest =>
    if b < 253 then some (b, 1)
    else if b = 253 then
      match rest with
      | x :: y :: _ => some (x + 256 * y, 3)
      | _ => none
    else if b = 254 then
      match rest with
      | x0 :: x1 :: x2 :: x3 :: _ =>
        some (x0 + 256 * x1 + 65536 * x2 + 16777216 * x3, 5)
      | _ => none
    else
      match rest with
      | x0 :: x1 :: x2 :: x3 :: x4 :: x5 :: x6 :: x7 :: _ =>
        some (x0 + 256 * x1 + 65536 * x2 + 16777216 * x3 + 4294967296 * x4 +
              1099511627776 * x5 + 281474976710656 * x6 + 72057594037927936 * x7, 9)
      | _ => none

/-- Modelled from the spec: ser_char_vector (lib/bitcoin.py, not in src)
writes the compact size prefix followed by the raw bytes. -/
def ser_char_vector (l : List Nat) : List Nat :=
  compactSize l.length ++ l

/-- Modelled from the spec: deser_char_vector (lib/bitcoin.py, not in src)
reads the size prefix then that many raw bytes, failing when the stream
ends before a complete record is read; returns the blob and the total
number of bytes consumed. -/
def deser_char_vector (l : List Nat) : Option (List Nat × Nat) := do
  let (n, c) ← parseVarint l
  let rest := l.drop c
  if rest.length < n then none else pure (rest.take n, c + n)

/-- One header record as held in the Python dict.  All keys except
prev_block_hash are modelled as always present; prev_block_hash is an
Option because hash_header treats its absence (None) specially.  Hash
fields and n_solution are kept in their dict representation (hex strings /
base64 string); block_height is the externally attached height. -/
structure Header where
  version : Int
  prev_block_hash : Option String
  merkle_root : String
  hash_reserved : String
  timestamp : Int
  bits : Nat
  nonce : String
  n_solution : String
  block_height : Int
  deriving DecidableEq, Repr

/-- serialize_header (blockchain.py lines 39-49): signed 32-bit version,
three 32-byte reversed hashes, unsigned 32-bit timestamp and bits, the
32-byte reversed nonce, and the size-prefixed base64-decoded solution
blob; none when a field value cannot be converted (the Python raises). -/
def serialize_header (res : Header) : Option (List Nat) := do
  let vb ← packInt32LE res.version
  let pb ← match res.prev_block_hash with
    | none => none
    | some s => str_to_hash s
  let mb ← str_to_hash res.merkle_root
  let rb ← str_to_hash res.hash_reserved
  let tb ← packUInt32LE res.timestamp
  let bb ← packUInt32LE (res.bits : Int)
  let nb ← str_to_hash res.nonce
  let sol ← b64decode res.n_solution
  pure (vb ++ pb ++ mb ++ rb ++ tb ++ bb ++ nb ++ ser_char_vector sol)

/-- deserialize_header (blockchain.py lines 51-62): reads the fixed fields
(version back as an unsigned 32-bit integer), then the size-prefixed
solution blob, and attaches the caller-supplied height. -/
def deserialize_header (l : List Nat) (height : Int) : Option Header := do
  let v ← unpack4 (l.take 4)
  let l1 := l.drop 4
  let prev := hash_to_str (l1.take 32)
  let l2 := l1.drop 32
  let merkle := hash_to_str (l2.take 32)
  let l3 := l2.drop 32
  let reserved := hash_to_str (l3.take 32)
  let l4 := l3.drop 32
  let ts ← unpack4 (l4.take 4)
  let l5 := l4.drop 4
  let bits ← unpack4 (l5.take 4)
  let l6 := l5.drop 4
  let nonce := hash_to_str (l6.take 32)
  let l7 := l6.drop 32
  let (sol, _) ← deser_char_vector l7
  pure { version := (v : Int), prev_block_hash := some prev, merkle_root := merkle,
         hash_reserved := reserved, timestamp := (ts : Int), bits := bits,
         nonce := nonce, n_solution := b64encode sol, block_height := height }

/-- External collaborators consumed by the validation code: the double-hash
from lib/bitcoin.py (Hash) and the equihash proof verifier
(is_gbp_valid) with its chain parameters, modelled as opaque functions
supplied by the environment, per the spec's ProofVerifier interface. -/
structure Env where
  hashFn : List Nat → List Nat
  gbp : List Nat → Nat → List Nat → Nat → Nat → Bool
  N : Nat
  K : Nat

/-- Modelled from the spec: uint256_from_bytes (lib/bitcoin.py, not in src)
interprets 32 bytes as an unsigned little-endian integer. -/
def uint256_from_bytes (l : List Nat) : Nat :=
  l.foldr (fun b acc => acc * 256 + b) 0

/-- sha256_header (blockchain.py lines 64-65): the proof-of-work hash of
the serialized header as an unsigned integer; raises when serialization
fails. -/
def sha256_header (env : Env) (header : Header) : Except PyErr Nat :=
  match serialize_header header with
  | none => .error .valueError
  | some b => .ok (uint256_from_bytes (env.hashFn b))

/-- hash_header (blockchain.py lines 67-72).  None maps to the 64-character
all-zero sentinel.  When the header's prev_block_hash is None the
dict is mutated in place to the string '00' repeated 64 times (128
characters) before hashing; the returned pair carries the hash string and
the possibly mutated header so that callers observe the mutation. -/
def hash_header (env : Env) (header : Option Header) : Except PyErr (String × Option Header) :=
  match header with
  | none => .ok (String.mk (List.replicate 64 '0'), none)
  | some h =>
    let h1 := if h.prev_block_hash = none
      then { h with prev_block_hash := some (String.mk (List.replicate 128 '0')) }
      else h
    match serialize_header h1 with
    | none => .error .valueError
    | some b => .ok (hash_to_str (env.hashFn b), some h1)

/-- MAX_TARGET (blockchain.py line 37). -/
def MAX_TARGET : Nat :=
  0x00000000FFFF0000000000000000000000000000000000000000000000000000

namespace Blockchain

/-- bits_to_target (blockchain.py lines 344-351): decode the compact
difficulty encoding; the top byte must lie in [0x03, 0x1d] and the low 24
bits in [0x8000, 0x7fffff], otherwise a hard validation failure. -/
def bits_to_target (bits : Nat) : Except PyErr Nat :=
  let bitsN := (bits >>> 24) &&& 0xff
  if ¬ (bitsN ≥ 0x03 ∧ bitsN ≤ 0x1d) then .error .badBitsN
  else
    let bitsBase := bits &&& 0xffffff
    if ¬ (bitsBase ≥ 0x8000 ∧ bitsBase ≤ 0x7fffff) then .error .badBitsBase
    else .ok (bitsBase <<< (8 * (bitsN - 3)))

/-- Big-endian hex digits of n with no leading zeros, as Python hex
formatting produces (a single 0 digit for n = 0). -/
def hexDigitsRaw (n : Nat) : List Nat :=
  if h : n < 16 then [n]
  else hexDigitsRaw (n / 16) ++ [n % 16]
decreasing_by
  exact Nat.div_lt_self (by omega) (by omega)

/-- The digit list of the Python format expression padding the hex digits
of target on the left with zeros to a minimum width of 64. -/
def fmt064x (n : Nat) : List Nat :=
  let d := hexDigitsRaw n
  if d.length < 64 then List.replicate (64 - d.length) 0 ++ d else d

/-- The while loop of target_to_bits: drop leading 00 digit pairs while
more than 6 digits remain. -/
def stripPairs (c : List Nat) : List Nat :=
  if h : c.take 2 = [0, 0] ∧ 6 < c.length then stripPairs (c.drop 2)
  else c
termination_by c.length
decreasing_by
  have h2 := h.2
  simp only [List.length_drop]
  omega

/-- Numeric value of a big-endian hex digit list, as int(c, 16). -/
def valHexBE (l : List Nat) : Nat :=
  l.foldl (fun a d => a * 16 + d) 0

/-- target_to_bits (blockchain.py lines 353-361): format the target as hex
padded to 64 digits, drop the first two digits, strip leading 00 pairs
down to at least 6 digits, take the byte length and the top three bytes,
and bump the exponent when the top bit of the base is set. -/
def target_to_bits (target : Nat) : Nat :=
  let c0 := (fmt064x target).drop 2
  let c := stripPairs c0
  let bitsN := c.length / 2
  let bitsBase := valHexBE (c.take 6)
  if bitsBase ≥ 0x800000 then ((bitsN + 1) <<< 24) ||| (bitsBase >>> 8)
  else (bitsN <<< 24) ||| bitsBase

/-- verify_header (blockchain.py lines 179-191).  Computes the linkage hash
of the previous header and the proof-of-work hash of the header, checks
linkage, then overwrites the supplied target with the target decoded from
the header's own bits field before the proof-of-work comparison, and
finally consults the external equihash verifier. -/
def verify_header (env : Env) (header : Header) (prev_header : Option Header)
    (_target : Int) : Except PyErr Unit := do
  let pr ← hash_header env prev_header
  let prev_hash := pr.1
  let powhash ← sha256_header env header
  if header.prev_block_hash ≠ some prev_hash then .error .prevHashMismatch
  else do
    let target2 ← bits_to_target header.bits
    if powhash > target2 then .error .insufficientWork
    else do
      let nb ← match str_to_hash header.nonce with
        | none => .error PyErr.valueError
        | some nb => .ok nb
      let nonce := uint256_from_bytes nb
      let sol ← match b64decode header.n_solution with
        | none => .error PyErr.valueError
        | some sol => .ok sol
      let sb ← match serialize_header header with
        | none => .error PyErr.valueError
        | some sb => .ok sb
      if ¬ env.gbp sb nonce sol env.N env.K then .error .equihashInvalid
      else .ok ()

/-- The read-only view of one Blockchain object needed by the validation
methods: its checkpoint and cached size, header lookup by height
(read_header resolved through the segment tree), and the chain constants
(TESTNET flag, CHECKPOINTS table, GENESIS hash). -/
structure BCView where
  checkpoint : Int
  size : Int
  readHeader : Int → Option Header
  testnet : Bool
  checkpoints : List (String × Nat)
  genesis : String

/-- height (blockchain.py lines 154-155). -/
def height (bc : BCView) : Int :=
  bc.checkpoint + bc.size - 1

/-- Python list indexing with negative-index wraparound; IndexError when
out of range. -/
def pyIndex {α : Type} (l : List α) (i : Int) : Except PyErr α :=
  if 0 ≤ i then
    match l.get? i.toNat with
    | some a => .ok a
    | none => .error .indexError
  else
    let j := (l.length : Int) + i
    if 0 ≤ j then
      match l.get? j.toNat with
      | some a => .ok a
      | none => .error .indexError
    else .error .indexError

/-- nTargetTimespan, the 14-day retarget window in seconds (blockchain.py
line 338). -/
def nTargetTimespan : Int := 14 * 24 * 60 * 60

/-- get_target (blockchain.py lines 323-342): 0 in test mode, MAX_TARGET
for period -1, the checkpoint table entry for checkpointed periods, and
otherwise the retarget computed from the first and last headers of the
period with the actual timespan clamped into a factor-4 window and the
result saturated at MAX_TARGET.  Reading a missing header surfaces as an
AttributeError, as None.get does in Python. -/
def get_target (bc : BCView) (index : Int) : Except PyErr Int :=
  if bc.testnet then .ok 0
  else if index = -1 then .ok (MAX_TARGET : Int)
  else if index < (bc.checkpoints.length : Int) then do
    let ht ← pyIndex bc.checkpoints index
    .ok (ht.2 : Int)
  else
    let first := bc.readHeader (index * 2016)
    let lastH := bc.readHeader (index * 2016 + 2015)
    do
      let bits ← match lastH with
        | none => .error PyErr.attributeError
        | some l => .ok l.bits
      let target ← bits_to_target bits
      let lastTs ← match lastH with
        | none => .error PyErr.attributeError
        | some l => .ok l.timestamp
      let firstTs ← match first with
        | none => .error PyErr.attributeError
        | some f => .ok f.timestamp
      let span0 := lastTs - firstTs
      let span1 := max span0 (Int.fdiv nTargetTimespan 4)
      let span := min span1 (nTargetTimespan * 4)
      .ok (min (MAX_TARGET : Int) (Int.fdiv ((target : Nat) * span) nTargetTimespan))

/-- can_connect (blockchain.py lines 363-385): height gate, the genesis
special case at height 0, predecessor lookup and hashing inside a
try/except that degrades to false, the linkage comparison, the target
derivation (outside any try), and verify_header inside a try/except that
degrades to false.  The possibly mutated predecessor from hash_header is
the dict verify_header sees. -/
def can_connect (env : Env) (bc : BCView) (header : Header)
    (check_height : Bool) : Except PyErr Bool :=
  let ht := header.block_height
  if check_height ∧ height bc ≠ ht - 1 then .ok false
  else if ht = 0 then
    match hash_header env (some header) with
    | .error e => .error e
    | .ok (hh, _) => .ok (hh = bc.genesis)
  else
    match hash_header env (bc.readHeader (ht - 1)) with
    | .error _ => .ok false
    | .ok (prev_hash, prevPost) =>
      if header.prev_block_hash ≠ some prev_hash then .ok false
      else
        match get_target bc (Int.fdiv ht 2016 - 1) with
        | .error e => .error e
        | .ok target =>
          match verify_header env header prevPost target with
          | .error _ => .ok false
          | .ok _ => .ok true

/-- A Python numeric value distinguishing int from float; true division of
two ints always yields a float in Python 3. -/
inductive PyNum where
  | int (n : Int)
  | float (num den : Int)

/-- Python 3 true division of two integers: always a float. -/
def pyTrueDiv (a b : Int) : PyNum :=
  PyNum.float a b

/-- Python range applied to a PyNum: raises TypeError on a float. -/
def pyRange : PyNum → Except PyErr (List Int)
  | .int n => .ok ((List.range n.toNat).map (Int.ofNat))
  | .float _ _ => .error .typeError

/-- bfh - bytes.fromhex (lib/util.py, not in src); raises ValueError on
malformed hex. -/
def bfh (s : String) : Except PyErr (List Nat) :=
  match hexDecode s.data with
  | none => .error .valueError
  | some b => .ok b

/-- verify_chunk (blockchain.py lines 193-206).  num is the Python 3 true
division len(data) / 1484, a float; the previous header is read for a
nonzero index; iterating range(num) raises TypeError on the float, and
even with an integer count the first loop statement resolves the
nonexistent attribute self.deserialize_header and raises. -/
def verify_chunk (bc : BCView) (index : Int) (data : List Nat) : Except PyErr Unit := do
  let num := pyTrueDiv (data.length : Int) 1484
  let _prev_header := if index ≠ 0 then bc.readHeader (index * 2016 - 1) else none
  let r ← pyRange num
  r.forM (fun _ => .error PyErr.attributeError)

/-- connect_chunk (blockchain.py lines 387-396): decode the hex payload and
verify the chunk inside a try/except returning a boolean.  The
save_chunk persistence step is unreachable because verify_chunk raises on
every input, so it is not modelled beyond the boolean outcome. -/
def connect_chunk (bc : BCView) (idx : Int) (hexdata : String) : Bool :=
  match (do
    let data ← bfh hexdata
    verify_chunk bc idx data : Except PyErr Unit) with
  | .ok _ => true
  | .error _ => false

end Blockchain

namespace Blockchain

/-- On-disk file names: the root segment's fixed file, or a fork file named
from (parent checkpoint, own checkpoint) as path() derives it
(blockchain.py lines 208-211). -/
inductive Path where
  | main
  | fork (parentId checkpoint : Int)
  deriving DecidableEq, Repr

/-- The mutable fields of one Blockchain object relevant to storage. -/
structure Seg where
  checkpoint : Int
  parent_id : Option Int
  size : Int
  deriving DecidableEq, Repr

/-- path (blockchain.py lines 208-211). -/
def segPath (seg : Seg) : Path :=
  match seg.parent_id with
  | none => Path.main
  | some pid => Path.fork pid seg.checkpoint

/-- The file system as an association list from paths to byte contents. -/
def FS : Type := List (Path × List Nat)

/-- Content of the file at a path, none when it does not exist. -/
def fsRead (fs : FS) (p : Path) : Option (List Nat) :=
  match fs with
  | [] => none
  | (q, d) :: rest => if q = p then some d else fsRead rest p

/-- Replace (or create) the file at a path. -/
def fsWrite (fs : FS) (p : Path) (d : List Nat) : FS :=
  match fs with
  | [] => [(p, d)]
  | (q, e) :: rest => if q = p then (p, d) :: rest else (q, e) :: fsWrite rest p d

/-- The loop of update_size (blockchain.py lines 169-177): from the current
position, seek 140 bytes forward, read the vector size prefix, skip the
blob, and count the record only if the resulting position is strictly
before end-of-file; any read failure breaks the loop.  The fuel argument
is an embedding device for structural recursion: every iteration advances
the position by at least 141 bytes and an iteration needs the position's
140-byte successor to lie strictly inside the file, so file.length units
of fuel are never exhausted before the loop's own break. -/
def update_size_loop (file : List Nat) : Nat → Nat → Nat → Nat
  | 0, _, acc => acc
  | fuel + 1, pos, acc =>
    match parseVarint (file.drop (pos + 140)) with
    | none => acc
    | some (vs, consumed) =>
      let pos2 := pos + 140 + consumed + vs
      if pos2 < file.length then update_size_loop file fuel pos2 (acc + 1)
      else update_size_loop file fuel pos2 acc

/-- update_size (blockchain.py lines 161-177) applied to the content of the
segment's file (0 for a missing file). -/
def update_size (file : List Nat) : Nat :=
  update_size_loop file (file.length + 1) 0 0

/-- The skip loop of height_to_offset: advance over k records, raising a
read error when the size prefix cannot be read and the out-of-file error
when the position after a skip is at or past end-of-file. -/
def height_to_offset_loop (file : List Nat) : Nat → Nat → Except PyErr Unit
  | 0, _ => .ok ()
  | k + 1, cur =>
    match parseVarint (file.drop (cur + 140)) with
    | none => .error .structError
    | some (vs, consumed) =>
      let cur2 := cur + 140 + consumed + vs
      if cur2 ≥ file.length then .error .outOfFile
      else height_to_offset_loop file k cur2

/-- height_to_offset, the Python method named with a leading underscore
(blockchain.py lines 261-273): remembers the stream position pos on
entry, seeks to start and skips height whole records with the end-of-file
check, then seeks back to pos and returns the current position - i.e. it
returns pos, the position the stream had before the call, not the
computed offset. -/
def height_to_offset (file : List Nat) (heightArg : Int) (start pos : Nat) :
    Except PyErr Nat :=
  match height_to_offset_loop file heightArg.toNat start with
  | .error e => .error e
  | .ok _ => .ok pos

/-- write (blockchain.py lines 275-288): open the segment's file, resolve
the offset for delta with the stream position at end-of-file, optionally
truncate there, write the data, and recompute the cached size. -/
def write (seg : Seg) (fs : FS) (data : List Nat) (delta : Int)
    (truncate : Bool) : Except PyErr (Seg × FS) := do
  let file ← match fsRead fs (segPath seg) with
    | none => .error PyErr.fileNotFound
    | some f => .ok f
  let eof := file.length
  let offset ← height_to_offset file delta 0 eof
  let file1 := if truncate ∧ offset < eof then file.take offset else file
  let file2 := file1.take offset ++ data ++ file1.drop (offset + data.length)
  let fs2 := fsWrite fs (segPath seg) file2
  .ok ({ seg with size := (update_size file2 : Int) }, fs2)

/-- World state for the storage operations: the registry holds exactly the
two segments involved in the reorg scenario - the child (self) and its
parent - so the rename loop over other registry entries is vacuous. -/
structure ChainState where
  s : Seg
  p : Seg
  fs : FS

/-- swap_with_parent (blockchain.py lines 223-259) for a registry of the two
segments involved: return unless a parent exists and the parent's branch
is strictly shorter; read this segment's whole file and the parent range
located via height_to_offset; write both segments; then exchange
parent_id, checkpoint and cached size between the two objects and update
the registry (implicit here, the registry being keyed by the swapped
checkpoints). -/
def swap_with_parent (st : ChainState) : Except PyErr ChainState :=
  match st.s.parent_id with
  | none => .ok st
  | some _ =>
    let parent := st.p
    let parent_branch_size := (parent.checkpoint + parent.size - 1) - st.s.checkpoint + 1
    if parent_branch_size ≥ st.s.size then .ok st
    else do
      let parent_id := st.s.parent_id
      let checkpoint := st.s.checkpoint
      let my_data ← match fsRead st.fs (segPath st.s) with
        | none => .error PyErr.fileNotFound
        | some f => .ok f
      let pfile ← match fsRead st.fs (segPath parent) with
        | none => .error PyErr.fileNotFound
        | some f => .ok f
      let offset ← height_to_offset pfile (checkpoint - parent.checkpoint) 0 0
      let length ← height_to_offset pfile parent_branch_size offset 0
      let parent_data := (pfile.drop offset).take length
      let (s1, fs1) ← write st.s st.fs parent_data 0 false
      let (p1, fs2) ← write parent fs1 my_data (checkpoint - parent.checkpoint) false
      let s2 : Seg := { checkpoint := p1.checkpoint, parent_id := p1.parent_id,
                        size := p1.size }
      let p2 : Seg := { checkpoint := checkpoint, parent_id := parent_id,
                        size := parent_branch_size }
      .ok { s := s2, p := p2, fs := fs2 }

/-- save_header (blockchain.py lines 290-295) invoked on the child segment:
serialize, assert contiguous append (delta equals the cached size), write
at delta, then run the reorg check. -/
def save_header (st : ChainState) (header : Header) : Except PyErr ChainState := do
  let delta := header.block_height - st.s.checkpoint
  let data ← match serialize_header header with
    | none => .error PyErr.valueError
    | some d => .ok d
  if delta ≠ st.s.size then .error .assertionError
  else do
    let (s1, fs1) ← write st.s st.fs data delta false
    swap_with_parent { st with s := s1, fs := fs1 }

/-- The file content of the segment the registry maps a checkpoint to (the
registry is keyed by the segments' current checkpoints). -/
def regFile (st : ChainState) (cp : Int) : Option (List Nat) :=
  if st.s.checkpoint = cp then fsRead st.fs (segPath st.s)
  else if st.p.checkpoint = cp then fsRead st.fs (segPath st.p)
  else none

end Blockchain

/-- Decidable equality on embedded computation results, so that concrete
runs of the embedded code can be checked by evaluation. -/
instance instDecEqExcept {ε α : Type} [DecidableEq ε] [DecidableEq α] :
    DecidableEq (Except ε α) := fun a b =>
  match a, b with
  | .ok x, .ok y =>
    if h : x = y then isTrue (by rw [h]) else isFalse (fun hh => h (Except.ok.inj hh))
  | .error e, .error f =>
    if h : e = f then isTrue (by rw [h]) else isFalse (fun hh => h (Except.error.inj hh))
  | .ok _, .error _ => isFalse (fun hh => Except.noConfusion hh)
  | .error _, .ok _ => isFalse (fun hh => Except.noConfusion hh)

/-- A 64-character all-zero hash string, the canonical hex form of 32 zero
bytes. -/
def z64 : String := String.mk (List.replicate 64 '0')

/-- A minimal well-formed record for the storage scans: 140 fixed bytes of
value t followed by a zero size prefix (an empty proof blob). -/
def recB (t : Nat) : List Nat := List.replicate 140 t ++ [0]

/-- A concrete header whose serialization is the 141-byte record
7 :: 140 zero bytytes. -/
def hdrA : Header :=
  { version := 7, prev_block_hash := some z64, merkle_root := z64,
    hash_reserved := z64, timestamp := 0, bits := 0, nonce := z64,
    n_solution := "", block_height := 2 }

/-- The serialized bytes of hdrA. -/
def recA : List Nat := 7 :: List.replicate 140 0

/-- Root segment file with three records (heights 0, 1, 2 as stored). -/
def parentFile0 : List Nat := recB 1 ++ recB 2 ++ recB 3

/-- Fork segment file with two records. -/
def forkFile0 : List Nat := recB 4 ++ recB 5

/-- Pre-reorg state: root parent at checkpoint 0 with cached size 2, child
fork at checkpoint 1 with cached size 1 (both cached sizes are what
update_size recomputes on these files). -/
def st0 : Blockchain.ChainState :=
  { s := { checkpoint := 1, parent_id := some 0, size := 1 },
    p := { checkpoint := 0, parent_id := none, size := 2 },
    fs := [(Blockchain.Path.main, parentFile0),
           (Blockchain.Path.fork 0 1, forkFile0)] }

set_option maxRecDepth 4000 in
/-- C3: the offset-resolution operation is claimed to return the byte
offset of the record relativeIndex whole records past the starting
offset.  It does not: it returns the stream position it was called with
(here 0 and 7) regardless of the skip, where the claimed results are 141
and 282; and a skip that ends exactly at end-of-file already raises the
out-of-range error. -/
theorem c3_height_to_offset_returns_entry_position :
    Blockchain.height_to_offset (recB 1 ++ recB 2) 1 0 0 = .ok 0
    ∧ Blockchain.height_to_offset (recB 1 ++ recB 2 ++ recB 3) 1 141 7 = .ok 7
    ∧ Blockchain.height_to_offset (recB 1) 1 0 0 = .error .outOfFile
    ∧ (0 : Nat) ≠ 141 := by
  refine ⟨by decide, by decide, by decide, by decide⟩

set_option maxRecDepth 8000 in
/-- C4: update_size is claimed to count all complete records (n for a file
of n complete records, with an incomplete trailing fragment excluded).
On a file of exactly one complete record it returns 0, and on two
complete records it returns 1: a complete record is only counted when
strictly more data follows it, so the last complete record of a
fragment-free file is always dropped.  With a trailing fragment the count
is correct (2 for two records plus a fragment). -/
theorem c4_update_size_drops_last_record :
    Blockchain.update_size (recB 1) = 0
    ∧ Blockchain.update_size (recB 1 ++ recB 2) = 1
    ∧ Blockchain.update_size (recB 1 ++ recB 2 ++ [9, 9]) = 2 := by
  refine ⟨by decide, by decide, by decide⟩

set_option maxRecDepth 20000 in
/-- C2: after appending the fork's next header (which runs the
swap-with-parent reorg), the claim expects the registry entry at the
fork's original checkpoint 1 to hold the formerly-parent's pre-fork
record for height 1 (recB 2), and the entry at the parent's original
checkpoint 0 to hold the fork chain.  Instead the entry at 1 still holds
the fork's own bytes, and the entry at 0 holds the old parent content
with the fork's bytes appended after it: height_to_offset returns the
entry position instead of the skip offset, so the parent-tail read is
empty and both writes append at end-of-file. -/
theorem c2_swap_with_parent_exchanges_nothing :
    (Blockchain.save_header st0 hdrA).map
        (fun st => (Blockchain.regFile st 1, Blockchain.regFile st 0))
      = .ok (some (forkFile0 ++ recA), some (parentFile0 ++ forkFile0 ++ recA))
    ∧ forkFile0 ++ recA ≠ recB 2
    ∧ parentFile0 ++ forkFile0 ++ recA ≠ recB 1 ++ forkFile0 ++ recA := by
  refine ⟨by decide, by decide, by decide⟩

/-- C5: connect_chunk is claimed to return true on a valid chunk for period
0 and persist it.  It returns false on every input: verify_chunk computes
num as the Python 3 true division len(data) / 1484 and range(num) raises
TypeError on the float (and with an integer count the loop body would
resolve the nonexistent attribute self.deserialize_header and raise), so
the exception handler in connect_chunk always returns False. -/
theorem c5_connect_chunk_always_false (bc : Blockchain.BCView) (idx : Int)
    (hexdata : String) : Blockchain.connect_chunk bc idx hexdata = false := by
  unfold Blockchain.connect_chunk
  cases hb : Blockchain.bfh hexdata with
  | error e => rfl
  | ok data => rfl

/-- A benign environment: the double-hash is constantly 32 zero bytes and
the proof verifier accepts everything. -/
def env0 : Env :=
  { hashFn := fun _ => List.replicate 32 0, gbp := fun _ _ _ _ _ => true,
    N := 96, K := 5 }

/-- A predecessor header with canonical all-zero fields. -/
def hdrP : Header :=
  { version := 7, prev_block_hash := some z64, merkle_root := z64,
    hash_reserved := z64, timestamp := 0, bits := 0x1d00ffff, nonce := z64,
    n_solution := "", block_height := 0 }

/-- A candidate header linking to the all-zero hash (the identity hash env0
assigns to every header). -/
def hdrW : Header :=
  { version := 7, prev_block_hash := some z64, merkle_root := z64,
    hash_reserved := z64, timestamp := 0, bits := 0x1d00ffff, nonce := z64,
    n_solution := "", block_height := 1 }

/-- C1 (amended): verify_header performs its checks in order with the first
failure short-circuiting - linkage, then insufficient work, then the
external proof verifier - but the insufficient-work comparison is made
against the target decoded from the header's own bits field, the
supplied target argument being overwritten before use. -/
theorem c1_verify_header_checks
    (env : Env) (header : Header) (prev : Option Header) (target : Int)
    (ph : String) (prevPost : Option Header) (pw t2 : Nat) (nb sol sb : List Nat)
    (h1 : hash_header env prev = .ok (ph, prevPost))
    (h2 : sha256_header env header = .ok pw)
    (h3 : Blockchain.bits_to_target header.bits = .ok t2)
    (h4 : str_to_hash header.nonce = some nb)
    (h5 : b64decode header.n_solution = some sol)
    (h6 : serialize_header header = some sb) :
    Blockchain.verify_header env header prev target =
      (if header.prev_block_hash ≠ some ph then .error .prevHashMismatch
       else if pw > t2 then .error .insufficientWork
       else if ¬ env.gbp sb (uint256_from_bytes nb) sol env.N env.K then
         .error .equihashInvalid
       else .ok ()) := by
  simp only [Blockchain.verify_header, h1, h2, h3, h4, h5, h6, Bind.bind, Except.bind]

set_option maxRecDepth 8000 in
/-- Witness for C1: a concrete run in which all three checks pass and
verify_header succeeds. -/
theorem c1_witness :
    Blockchain.verify_header env0 hdrW (some hdrP) 0 = .ok () := by
  rw [c1_verify_header_checks env0 hdrW (some hdrP) 0 z64 (some hdrP) 0
    (0xffff <<< 208) (List.replicate 32 0) []
    (7 :: (List.replicate 103 0 ++ [255, 255, 0, 29] ++ List.replicate 32 0 ++ [0]))
    (by decide) (by decide) (by decide) (by decide) (by decide) (by decide)]
  decide

/-- An adversarial environment whose double-hash is constantly 32 bytes of
0xff, making every proof-of-work hash the maximal 256-bit value. -/
def envFF : Env :=
  { hashFn := fun _ => List.replicate 32 255, gbp := fun _ _ _ _ _ => true,
    N := 96, K := 5 }

/-- The 64-character all-ff hash string. -/
def zf64 : String := String.mk (List.replicate 64 'f')

/-- A candidate header linking to the all-ff hash envFF assigns to every
header. -/
def hdrC : Header :=
  { version := 7, prev_block_hash := some zf64, merkle_root := z64,
    hash_reserved := z64, timestamp := 0, bits := 0x1d00ffff, nonce := z64,
    n_solution := "", block_height := 1 }

set_option maxRecDepth 8000 in
/-- Counterexample to C1 as stated: the linkage check passes, the header's
proof-of-work hash (2^256 - 1) does not exceed the supplied target
argument 2^256, and the external verifier accepts everything, so the
claim requires success - yet verify_header fails with the
insufficient-work error, because it compares against the target decoded
from the header's own bits field instead of the supplied argument. -/
theorem c1_counterexample :
    Blockchain.verify_header envFF hdrC (some hdrP) (2 ^ 256) =
      .error .insufficientWork
    ∧ hash_header envFF (some hdrP) = .ok (zf64, some hdrP)
    ∧ hdrC.prev_block_hash = some zf64
    ∧ sha256_header envFF hdrC = .ok (2 ^ 256 - 1)
    ∧ ((2 ^ 256 - 1 : Nat) : Int) ≤ 2 ^ 256
    ∧ envFF.gbp = fun _ _ _ _ _ => true := by
  refine ⟨by decide, by decide, by decide, by decide, by decide, rfl⟩

/-- The 128-character string the in-place mutation writes: '00' repeated 64
times. -/
def z128 : String := String.mk (List.replicate 128 '0')

/-- A header whose prev_block_hash key holds None. -/
def hN0 : Header :=
  { version := 7, prev_block_hash := none, merkle_root := z64,
    hash_reserved := z64, timestamp := 0, bits := 0, nonce := z64,
    n_solution := "", block_height := 0 }

/-- C10 (amended): hash_header mutates a header whose prev_block_hash is
None in place, setting the field to '00' repeated 64 times - a string of
one hundred twenty-eight '0' characters, not sixty-four - before
serializing and hashing, and the caller observes the mutated header; the
None (absent header) case returns the 64-character all-zero sentinel
without any mutation. -/
theorem c10_hash_header_mutates_to_128_zeros
    (env : Env) (h : Header) (sb : List Nat)
    (hnone : h.prev_block_hash = none)
    (hser : serialize_header { h with prev_block_hash := some z128 } = some sb) :
    hash_header env (some h) =
      .ok (hash_to_str (env.hashFn sb), some { h with prev_block_hash := some z128 })
    ∧ hash_header env none = .ok (String.mk (List.replicate 64 '0'), none) := by
  have hcond : (if h.prev_block_hash = none
      then { h with prev_block_hash := some (String.mk (List.replicate 128 '0')) }
      else h) = { h with prev_block_hash := some z128 } := by
    rw [hnone]
    rfl
  constructor
  · simp only [hash_header, hcond, hser]
  · rfl

set_option maxRecDepth 8000 in
/-- Witness for C10: the mutation observed on a concrete header. -/
theorem c10_witness :
    hash_header env0 (some hN0) =
      .ok (hash_to_str (env0.hashFn (7 :: List.replicate 172 0)),
           some { hN0 with prev_block_hash := some z128 })
    ∧ hash_header env0 none = .ok (String.mk (List.replicate 64 '0'), none) :=
  c10_hash_header_mutates_to_128_zeros env0 hN0 (7 :: List.replicate 172 0)
    (by decide) (by decide)

set_option maxRecDepth 8000 in
/-- Counterexample to C10 as stated: the string written into the mutated
header has 128 characters, not the claimed sixty-four. -/
theorem c10_counterexample :
    (match hash_header env0 (some hN0) with
     | .ok (_, some h2) => h2.prev_block_hash
     | _ => none) = some z128
    ∧ z128.length = 128
    ∧ z128 ≠ String.mk (List.replicate 64 '0') := by
  refine ⟨by decide, by decide, by decide⟩

/-- C8: for a non-testnet, non-checkpointed period index at least 0, the
retarget uses the actual timespan clamped into
[nTargetTimespan/4, nTargetTimespan*4] and returns
min(MAX_TARGET, previousPeriodTarget * clampedTimespan // nTargetTimespan)
with exact integer (floor) division, and the clamped timespan lies within
those bounds for every timestamp delta. -/
theorem c8_get_target_retarget
    (bc : Blockchain.BCView) (index : Int) (first lastH : Header) (t : Nat)
    (htn : bc.testnet = false)
    (h0 : 0 ≤ index)
    (hcp : (bc.checkpoints.length : Int) ≤ index)
    (hf : bc.readHeader (index * 2016) = some first)
    (hl : bc.readHeader (index * 2016 + 2015) = some lastH)
    (ht : Blockchain.bits_to_target lastH.bits = .ok t) :
    Blockchain.get_target bc index =
      .ok (min (MAX_TARGET : Int)
        (Int.fdiv ((t : Int) *
            min (max (lastH.timestamp - first.timestamp)
                (Int.fdiv Blockchain.nTargetTimespan 4))
              (Blockchain.nTargetTimespan * 4))
          Blockchain.nTargetTimespan))
    ∧ Int.fdiv Blockchain.nTargetTimespan 4 ≤
        min (max (lastH.timestamp - first.timestamp)
            (Int.fdiv Blockchain.nTargetTimespan 4))
          (Blockchain.nTargetTimespan * 4)
    ∧ min (max (lastH.timestamp - first.timestamp)
          (Int.fdiv Blockchain.nTargetTimespan 4))
        (Blockchain.nTargetTimespan * 4) ≤ Blockchain.nTargetTimespan * 4 := by
  refine ⟨?_, ?_, min_le_right _ _⟩
  · have hne : ¬ index = -1 := by omega
    have hlt : ¬ index < (bc.checkpoints.length : Int) := by omega
    simp only [Blockchain.get_target, htn, hne, hlt, hf, hl, ht, if_false,
      Bind.bind, Except.bind, Bool.false_eq_true, ite_false]
  · exact le_min (le_max_right _ _) (by decide)

/-- A header of the retarget period's first slot. -/
def firstW : Header :=
  { version := 7, prev_block_hash := some z64, merkle_root := z64,
    hash_reserved := z64, timestamp := 0, bits := 0x1d00ffff, nonce := z64,
    n_solution := "", block_height := 0 }

/-- A header of the retarget period's last slot. -/
def lastW : Header :=
  { version := 7, prev_block_hash := some z64, merkle_root := z64,
    hash_reserved := z64, timestamp := 600, bits := 0x1d00ffff, nonce := z64,
    n_solution := "", block_height := 2015 }

/-- A chain view with period 0 fully stored and no checkpoint table. -/
def bcW : Blockchain.BCView :=
  { checkpoint := 0, size := 2016,
    readHeader := fun i => if i = 0 then some firstW
      else if i = 2015 then some lastW else none,
    testnet := false, checkpoints := [], genesis := z64 }

/-- Witness for C8: the retarget evaluated on a concrete period whose
actual timespan 600 clamps up to nTargetTimespan/4. -/
theorem c8_witness :
    Blockchain.get_target bcW 0 =
      .ok (min (MAX_TARGET : Int)
        (Int.fdiv (((0xffff <<< 208 : Nat) : Int) *
            min (max (lastW.timestamp - firstW.timestamp)
                (Int.fdiv Blockchain.nTargetTimespan 4))
              (Blockchain.nTargetTimespan * 4))
          Blockchain.nTargetTimespan))
    ∧ Int.fdiv Blockchain.nTargetTimespan 4 ≤
        min (max (lastW.timestamp - firstW.timestamp)
            (Int.fdiv Blockchain.nTargetTimespan 4))
          (Blockchain.nTargetTimespan * 4)
    ∧ min (max (lastW.timestamp - firstW.timestamp)
          (Int.fdiv Blockchain.nTargetTimespan 4))
        (Blockchain.nTargetTimespan * 4) ≤ Blockchain.nTargetTimespan * 4 :=
  c8_get_target_retarget bcW 0 firstW lastW (0xffff <<< 208)
    rfl (by decide) (by decide) (by decide) (by decide) (by decide)

/-- C9 (amended): can_connect swallows exceptions arising during
predecessor lookup and hashing and during verify_header, degrading to
false, but it does not swallow everything: an exception raised while
deriving the target (the get_target call sits outside any try block) or
while hashing the candidate in the height-0 genesis comparison
propagates.  Every error escaping can_connect comes from one of those two
places. -/
theorem c9_can_connect_error_sources
    (env : Env) (bc : Blockchain.BCView) (header : Header) (ch : Bool) (e : PyErr)
    (herr : Blockchain.can_connect env bc header ch = .error e) :
    (header.block_height = 0 ∧ hash_header env (some header) = .error e)
    ∨ (header.block_height ≠ 0 ∧
       Blockchain.get_target bc (Int.fdiv header.block_height 2016 - 1) = .error e) := by
  simp only [Blockchain.can_connect] at herr
  by_cases hA : ch = true ∧ Blockchain.height bc ≠ header.block_height - 1
  · rw [if_pos hA] at herr
    exact absurd herr (by simp)
  · rw [if_neg hA] at herr
    by_cases h0 : header.block_height = 0
    · rw [if_pos h0] at herr
      left
      refine ⟨h0, ?_⟩
      cases hhh : hash_header env (some header) with
      | error e2 =>
        rw [hhh] at herr
        have he : e2 = e := by simpa using herr
        rw [he]
      | ok pr =>
        obtain ⟨hh1, pp1⟩ := pr
        rw [hhh] at herr
        exact absurd herr (by simp)
    · rw [if_neg h0] at herr
      right
      refine ⟨h0, ?_⟩
      cases hhh : hash_header env (bc.readHeader (header.block_height - 1)) with
      | error e2 =>
        rw [hhh] at herr
        exact absurd herr (by simp)
      | ok pr =>
        obtain ⟨ph1, pp1⟩ := pr
        rw [hhh] at herr
        by_cases hpm : header.prev_block_hash ≠ some ph1
        · exact absurd herr (by simp [hpm])
        · cases hg : Blockchain.get_target bc (Int.fdiv header.block_height 2016 - 1) with
          | error e2 =>
            rw [hg] at herr
            have he : e2 = e := by simpa [hpm] using herr
            rw [he]
          | ok tg =>
            rw [hg] at herr
            cases hv : Blockchain.verify_header env header pp1 tg with
            | error e3 => exact absurd herr (by simp [hpm, hv])
            | ok u => exact absurd herr (by simp [hpm, hv])

/-- A stored period-0 last header carrying an invalid bits field (0), which
makes target derivation raise. -/
def lastBad : Header :=
  { version := 7, prev_block_hash := some z64, merkle_root := z64,
    hash_reserved := z64, timestamp := 0, bits := 0, nonce := z64,
    n_solution := "", block_height := 2015 }

/-- A chain view whose tip is 2015 with the invalid-bits header stored at
the period boundary. -/
def bc9 : Blockchain.BCView :=
  { checkpoint := 0, size := 2016,
    readHeader := fun i => if i = 0 then some firstW
      else if i = 2015 then some lastBad else none,
    testnet := false, checkpoints := [], genesis := z64 }

/-- A candidate at height 2016 whose linkage matches, driving can_connect
into the uncaught target derivation. -/
def hdr9 : Header :=
  { version := 7, prev_block_hash := some z64, merkle_root := z64,
    hash_reserved := z64, timestamp := 0, bits := 0x1d00ffff, nonce := z64,
    n_solution := "", block_height := 2016 }

/-- Witness for C9: the uncaught error of the concrete run is located in
the get_target call. -/
theorem c9_witness :
    (hdr9.block_height = 0 ∧ hash_header env0 (some hdr9) = .error .badBitsN)
    ∨ (hdr9.block_height ≠ 0 ∧
       Blockchain.get_target bc9 (Int.fdiv hdr9.block_height 2016 - 1) =
         .error .badBitsN) :=
  c9_can_connect_error_sources env0 bc9 hdr9 true .badBitsN (by decide)

set_option maxRecDepth 8000 in
/-- Counterexample to C9 as stated: can_connect propagates an exception to
its caller instead of degrading to false - the predecessor's bits field
is invalid, the bits decoding error is raised inside the get_target call
at line 377, which sits outside every try block. -/
theorem c9_counterexample :
    Blockchain.can_connect env0 bc9 hdr9 true = .error .badBitsN := by
  decide

/-- Unpacking the 4 little-endian bytes of a value below 2^32 recovers the
value. -/
theorem unpack4_le4_small (n : Nat) (hn : n < 4294967296) :
    unpack4 (le4 n) = some n := by
  simp only [unpack4, le4]
  refine congrArg some ?_
  omega

/-- Reading the compact size prefix it wrote recovers the size and the
prefix length, for sizes below 2^64 (the largest the 8-byte form holds). -/
theorem parseVarint_compactSize (n : Nat) (hn : n < 18446744073709551616)
    (rest : List Nat) :
    parseVarint (compactSize n ++ rest) = some (n, (compactSize n).length) := by
  unfold compactSize
  by_cases h1 : n < 253
  · simp [parseVarint, h1]
  · by_cases h2 : n < 65536
    · simp only [if_neg h1, if_pos h2, List.cons_append, List.length_cons]
      simp [parseVarint]
      omega
    · by_cases h3 : n < 4294967296
      · simp only [if_neg h1, if_neg h2, if_pos h3, List.cons_append, List.length_cons]
        simp [parseVarint]
        omega
      · simp only [if_neg h1, if_neg h2, if_neg h3, List.cons_append, List.length_cons]
        simp [parseVarint]
        omega

/-- Reading back a size-prefixed vector recovers the blob. -/
theorem deser_ser_char_vector (sol rest : List Nat)
    (hn : sol.length < 18446744073709551616) :
    deser_char_vector (ser_char_vector sol ++ rest) =
      some (sol, (compactSize sol.length).length + sol.length) := by
  unfold deser_char_vector ser_char_vector
  rw [List.append_assoc, parseVarint_compactSize sol.length hn (sol ++ rest)]
  simp only [Bind.bind, Option.bind, List.drop_left]
  rw [if_neg (by simp), List.take_left' rfl]
  rfl

/-- Packed 32-bit values occupy four bytes. -/
theorem le4_length (n : Nat) : (le4 n).length = 4 := rfl

set_option maxHeartbeats 1000000 in
/-- C6 (amended): deserializing the bytes produced by serializing a valid
header (one whose hash strings are canonical 32-byte hex, whose solution
string is canonical base64, and whose numeric fields pack successfully)
yields a header equal to the original in every field except block_height,
which is attached from the caller-supplied height argument, and except
version, which round-trips as its value modulo 2^32 because it is packed
signed and unpacked unsigned - so every field including version
round-trips exactly whenever the version is nonnegative. -/
theorem c6_round_trip
    (h : Header) (ht2 : Int)
    (ps : String) (vb tb bb pb mb rb nb sol : List Nat)
    (hv : packInt32LE h.version = some vb)
    (hts : packUInt32LE h.timestamp = some tb)
    (hbb : packUInt32LE (h.bits : Int) = some bb)
    (hp0 : h.prev_block_hash = some ps)
    (hp1 : str_to_hash ps = some pb) (hp2 : pb.length = 32) (hp3 : hash_to_str pb = ps)
    (hm1 : str_to_hash h.merkle_root = some mb) (hm2 : mb.length = 32)
    (hm3 : hash_to_str mb = h.merkle_root)
    (hr1 : str_to_hash h.hash_reserved = some rb) (hr2 : rb.length = 32)
    (hr3 : hash_to_str rb = h.hash_reserved)
    (hn1 : str_to_hash h.nonce = some nb) (hn2 : nb.length = 32)
    (hn3 : hash_to_str nb = h.nonce)
    (hs1 : b64decode h.n_solution = some sol)
    (hs2 : b64encode sol = h.n_solution)
    (hsl : sol.length < 18446744073709551616) :
    serialize_header h =
      some (vb ++ (pb ++ (mb ++ (rb ++ (tb ++ (bb ++ (nb ++ ser_char_vector sol)))))))
    ∧ deserialize_header
        (vb ++ (pb ++ (mb ++ (rb ++ (tb ++ (bb ++ (nb ++ ser_char_vector sol))))))) ht2
      = some { h with version := h.version % 4294967296, block_height := ht2 } := by
  have hvbe : vb = le4 (h.version % 4294967296).toNat ∧
      (-2147483648 ≤ h.version ∧ h.version < 2147483648) := by
    unfold packInt32LE at hv
    split at hv
    · rename_i hc
      exact ⟨(Option.some.inj hv).symm, hc⟩
    · exact absurd hv (by simp)
  obtain ⟨hvbe, hv0, hv1⟩ := hvbe
  have htbe : tb = le4 h.timestamp.toNat ∧
      (0 ≤ h.timestamp ∧ h.timestamp < 4294967296) := by
    unfold packUInt32LE at hts
    split at hts
    · rename_i hc
      exact ⟨(Option.some.inj hts).symm, hc⟩
    · exact absurd hts (by simp)
  obtain ⟨htbe, ht0, ht1⟩ := htbe
  have hbbe : bb = le4 h.bits ∧ h.bits < 4294967296 := by
    unfold packUInt32LE at hbb
    split at hbb
    · rename_i hc
      refine ⟨?_, by exact_mod_cast hc.2⟩
      rw [← Option.some.inj hbb, Int.toNat_natCast]
    · exact absurd hbb (by simp)
  obtain ⟨hbbe, hb1⟩ := hbbe
  have hv4 : vb.length = 4 := by rw [hvbe]; rfl
  have ht4 : tb.length = 4 := by rw [htbe]; rfl
  have hb4 : bb.length = 4 := by rw [hbbe]; rfl
  have hu1 : unpack4 vb = some (h.version % 4294967296).toNat := by
    rw [hvbe]
    exact unpack4_le4_small _ (by omega)
  have hu2 : unpack4 tb = some h.timestamp.toNat := by
    rw [htbe]
    exact unpack4_le4_small _ (by omega)
  have hu3 : unpack4 bb = some h.bits := by
    rw [hbbe]
    exact unpack4_le4_small _ hb1
  have hdc : deser_char_vector (ser_char_vector sol) =
      some (sol, (compactSize sol.length).length + sol.length) := by
    rw [← List.append_nil (ser_char_vector sol)]
    exact deser_ser_char_vector sol [] hsl
  refine ⟨?_, ?_⟩
  · simp only [serialize_header, hp0, hv, hts, hbb, hp1, hm1, hr1, hn1, hs1,
      Option.bind_eq_bind, Option.some_bind, Option.pure_def]
    simp only [List.append_assoc]
  · simp only [deserialize_header,
      List.take_left' hv4, List.drop_left' hv4,
      List.take_left' hp2, List.drop_left' hp2,
      List.take_left' hm2, List.drop_left' hm2,
      List.take_left' hr2, List.drop_left' hr2,
      List.take_left' ht4, List.drop_left' ht4,
      List.take_left' hb4, List.drop_left' hb4,
      List.take_left' hn2, List.drop_left' hn2,
      hu1, hu2, hu3, hdc, hp3, hm3, hr3, hn3, hs2,
      Option.bind_eq_bind, Option.some_bind, Option.pure_def]
    refine congrArg some ?_
    rw [Header.mk.injEq]
    refine ⟨by omega, hp0.symm, rfl, rfl, by omega, rfl, rfl, rfl, rfl⟩

set_option maxRecDepth 8000 in
/-- Witness for C6: the round trip evaluated on a concrete valid header. -/
theorem c6_witness :
    serialize_header hdrA =
      some ([7, 0, 0, 0] ++ (List.replicate 32 0 ++ (List.replicate 32 0 ++
        (List.replicate 32 0 ++ ([0, 0, 0, 0] ++ ([0, 0, 0, 0] ++
          (List.replicate 32 0 ++ ser_char_vector [])))))))
    ∧ deserialize_header
        ([7, 0, 0, 0] ++ (List.replicate 32 0 ++ (List.replicate 32 0 ++
         (List.replicate 32 0 ++ ([0, 0, 0, 0] ++ ([0, 0, 0, 0] ++
           (List.replicate 32 0 ++ ser_char_vector []))))))) 9
      = some { hdrA with version := hdrA.version % 4294967296, block_height := 9 } :=
  c6_round_trip hdrA 9 z64 [7, 0, 0, 0] [0, 0, 0, 0] [0, 0, 0, 0]
    (List.replicate 32 0) (List.replicate 32 0) (List.replicate 32 0)
    (List.replicate 32 0) []
    (by decide) (by decide) (by decide) (by decide) (by decide) (by decide)
    (by decide) (by decide) (by decide) (by decide) (by decide) (by decide)
    (by decide) (by decide) (by decide) (by decide) (by decide) (by decide)
    (by decide)

/-- A header with a negative version. -/
def hNeg : Header :=
  { version := -1, prev_block_hash := some z64, merkle_root := z64,
    hash_reserved := z64, timestamp := 0, bits := 0, nonce := z64,
    n_solution := "", block_height := 3 }

set_option maxRecDepth 8000 in
/-- Counterexample to C6 as stated: a valid header with version -1 does not
round-trip - serialize packs the version as a signed 32-bit value,
deserialize reads it back unsigned, and the caller gets version
4294967295. -/
theorem c6_counterexample :
    ((serialize_header hNeg).bind (fun b => deserialize_header b 3)).map
        (fun h2 => h2.version) = some 4294967295
    ∧ hNeg.version = -1
    ∧ ((4294967295 : Int) ≠ -1) := by
  refine ⟨by decide, rfl, by decide⟩

namespace Blockchain

/-- Fixed-width big-endian hex digits of n (width k, truncating above
16^k); the reasoning-side normal form for hex-format strings. -/
def digitsFix : Nat → Nat → List Nat
  | 0, _ => []
  | k + 1, n => digitsFix k (n / 16) ++ [n % 16]

theorem digitsFix_length (k n : Nat) : (digitsFix k n).length = k := by
  induction k generalizing n with
  | zero => rfl
  | succ k ih => simp [digitsFix, ih]

theorem digitsFix_zero (k : Nat) : digitsFix k 0 = List.replicate k 0 := by
  induction k with
  | zero => rfl
  | succ k ih => simp [digitsFix, ih, List.replicate_succ']

theorem digitsFix_split (a b n : Nat) :
    digitsFix (a + b) n = digitsFix a (n / 16 ^ b) ++ digitsFix b (n % 16 ^ b) := by
  induction b generalizing n with
  | zero => simp [digitsFix]
  | succ b ih =>
    have h1 : a + (b + 1) = (a + b) + 1 := rfl
    rw [h1]
    show digitsFix (a + b) (n / 16) ++ [n % 16] = _
    rw [ih (n / 16)]
    have e1 : n / 16 / 16 ^ b = n / 16 ^ (b + 1) := by
      rw [Nat.div_div_eq_div_mul, pow_succ]
      ring_nf
    have e2 : n / 16 % 16 ^ b = n % 16 ^ (b + 1) / 16 := by
      rw [show (16 : Nat) ^ (b + 1) = 16 * 16 ^ b by ring]
      rw [Nat.mod_mul_right_div_self]
    have e3 : n % 16 = n % 16 ^ (b + 1) % 16 := by
      rw [Nat.mod_mod_of_dvd]
      exact dvd_pow_self 16 (Nat.succ_ne_zero b)
    rw [e1, e2, e3]
    simp [digitsFix, List.append_assoc]

theorem valHexBE_foldl (acc : Nat) (l : List Nat) :
    l.foldl (fun a d => a * 16 + d) acc = acc * 16 ^ l.length + valHexBE l := by
  induction l generalizing acc with
  | nil => simp [valHexBE]
  | cons d l ih =>
    show (l.foldl _ (acc * 16 + d)) = _
    rw [ih]
    have hd : valHexBE (d :: l) = d * 16 ^ l.length + valHexBE l := by
      show (l.foldl _ (0 * 16 + d)) = _
      rw [ih]
      ring_nf
    rw [hd]
    simp [List.length_cons, pow_succ]
    ring

theorem valHexBE_digitsFix (k n : Nat) : valHexBE (digitsFix k n) = n % 16 ^ k := by
  induction k generalizing n with
  | zero => simp [digitsFix, valHexBE, Nat.mod_one]
  | succ k ih =>
    show valHexBE (digitsFix k (n / 16) ++ [n % 16]) = _
    unfold valHexBE
    rw [List.foldl_append]
    show (_ : Nat) * 16 + n % 16 = _
    have := ih (n / 16)
    unfold valHexBE at this
    rw [this]
    rw [show (16 : Nat) ^ (k + 1) = 16 * 16 ^ k by ring, Nat.mod_mul]
    ring

theorem valHexBE_append_replicate (l : List Nat) (j : Nat) :
    valHexBE (l ++ List.replicate j 0) = valHexBE l * 16 ^ j := by
  unfold valHexBE
  rw [List.foldl_append]
  have : ∀ (m : Nat) (acc : Nat),
      (List.replicate m 0).foldl (fun a d => a * 16 + d) acc = acc * 16 ^ m := by
    intro m
    induction m with
    | zero => intro acc; simp
    | succ m ih =>
      intro acc
      show (List.replicate m 0).foldl _ (acc * 16 + 0) = _
      rw [ih]
      ring
  exact this j _

theorem valHexBE_replicate_append (j : Nat) (l : List Nat) :
    valHexBE (List.replicate j 0 ++ l) = valHexBE l := by
  unfold valHexBE
  rw [List.foldl_append]
  have : (List.replicate j 0).foldl (fun a d => a * 16 + d) 0 = 0 := by
    induction j with
    | zero => rfl
    | succ j ih => simpa using ih
  rw [this]

theorem hexDigitsRaw_eq_digitsFix (k n : Nat) (hk : 1 ≤ k) (hn : n < 16 ^ k) :
    digitsFix k n = List.replicate (k - (hexDigitsRaw n).length) 0 ++ hexDigitsRaw n := by
  induction k generalizing n with
  | zero => omega
  | succ k ih =>
    by_cases hsm : n < 16
    · have hr : hexDigitsRaw n = [n] := by
        rw [hexDigitsRaw, dif_pos hsm]
      show digitsFix k (n / 16) ++ [n % 16] = _
      rw [Nat.div_eq_of_lt hsm, Nat.mod_eq_of_lt hsm, digitsFix_zero, hr]
      simp
    · have hk1 : 1 ≤ k := by
        by_contra hke
        have : k = 0 := by omega
        subst this
        simp at hn
        omega
      have hdiv : n / 16 < 16 ^ k := by
        rw [Nat.div_lt_iff_lt_mul (by norm_num)]
        calc n < 16 ^ (k + 1) := hn
        _ = 16 ^ k * 16 := by ring
      have hr : hexDigitsRaw n = hexDigitsRaw (n / 16) ++ [n % 16] := by
        rw [hexDigitsRaw, dif_neg hsm]
      show digitsFix k (n / 16) ++ [n % 16] = _
      rw [ih (n / 16) hk1 hdiv, hr]
      have hlen : (hexDigitsRaw (n / 16)).length + 1 =
          (hexDigitsRaw (n / 16) ++ [n % 16]).length := by simp
      simp only [List.length_append, List.length_cons, List.length_nil]
      rw [show k + 1 - ((hexDigitsRaw (n / 16)).length + (0 + 1)) =
          k - (hexDigitsRaw (n / 16)).length by omega]
      simp [List.append_assoc]

theorem hexDigitsRaw_len_le (k n : Nat) (hk : 1 ≤ k) (hn : n < 16 ^ k) :
    (hexDigitsRaw n).length ≤ k := by
  have h := congrArg List.length (hexDigitsRaw_eq_digitsFix k n hk hn)
  rw [digitsFix_length] at h
  simp only [List.length_append, List.length_replicate] at h
  omega

theorem fmt064x_drop2 (n : Nat) (hn : n < 16 ^ 62) :
    (fmt064x n).drop 2 = digitsFix 62 n := by
  have hL := hexDigitsRaw_len_le 62 n (by norm_num) hn
  unfold fmt064x
  rw [if_pos (by omega : (hexDigitsRaw n).length < 64)]
  rw [show 64 - (hexDigitsRaw n).length = 2 + (62 - (hexDigitsRaw n).length) by omega,
    List.replicate_add, List.append_assoc, List.drop_left' (by simp)]
  rw [hexDigitsRaw_eq_digitsFix 62 n (by norm_num) hn]

theorem stripPairs_cons00 (l : List Nat) (h : 5 ≤ l.length) :
    stripPairs (0 :: 0 :: l) = stripPairs l := by
  rw [stripPairs]
  rw [dif_pos ⟨rfl, by simp; omega⟩]
  rfl

theorem stripPairs_stop (c : List Nat) (h : ¬(c.take 2 = [0, 0] ∧ 6 < c.length)) :
    stripPairs c = c := by
  rw [stripPairs, dif_neg h]

theorem stripPairs_replicate (j : Nat) (rest : List Nat) (h : 6 ≤ rest.length) :
    stripPairs (List.replicate (2 * j) 0 ++ rest) = stripPairs rest := by
  induction j with
  | zero => simp
  | succ j ih =>
    have hrw : List.replicate (2 * (j + 1)) 0 ++ rest =
        0 :: 0 :: (List.replicate (2 * j) 0 ++ rest) := by
      rw [show 2 * (j + 1) = (2 * j + 1) + 1 by ring]
      simp [List.replicate_succ]
    rw [hrw, stripPairs_cons00 _ (by simp; omega), ih]

theorem digitsFix_two (m : Nat) : digitsFix 2 m = [m / 16 % 16, m % 16] := rfl

/-- Key canonicalization fact: target_to_bits applied to a target decoded
from an in-range compact encoding reproduces that encoding exactly. -/
theorem target_to_bits_round (N B : Nat) (hN1 : 3 ≤ N) (hN2 : N ≤ 29)
    (hB1 : 0x8000 ≤ B) (hB2 : B ≤ 0x7fffff) :
    target_to_bits (B <<< (8 * (N - 3))) = (N <<< 24) ||| B := by
  obtain ⟨k, rfl⟩ : ∃ k, N = k + 3 := ⟨N - 3, by omega⟩
  have hk26 : k ≤ 26 := by omega
  have h16 : (16 : Nat) ^ (2 * k) = 2 ^ (8 * k) := by
    rw [show (16 : Nat) = 2 ^ 4 from rfl, ← pow_mul]
    congr 1
    ring
  have hsh : B <<< (8 * (k + 3 - 3)) = B * 16 ^ (2 * k) := by
    rw [Nat.shiftLeft_eq, h16, show k + 3 - 3 = k by omega]
  have hB6 : B < 16 ^ 6 := by omega
  have htlt : B * 16 ^ (2 * k) < 16 ^ (6 + 2 * k) := by
    rw [pow_add]
    exact Nat.mul_lt_mul_of_lt_of_le hB6 (Nat.le_refl _) (Nat.pos_pow_of_pos _ (by norm_num))
  have ht62 : B * 16 ^ (2 * k) < 16 ^ 62 :=
    lt_of_lt_of_le htlt (Nat.pow_le_pow_right (by norm_num) (by omega))
  have hdig : digitsFix 62 (B * 16 ^ (2 * k)) =
      List.replicate (2 * (28 - k)) 0 ++ (digitsFix 6 B ++ List.replicate (2 * k) 0) := by
    rw [show (62 : Nat) = (62 - 2 * k) + 2 * k by omega, digitsFix_split,
      Nat.mul_div_cancel B (Nat.pos_pow_of_pos _ (by norm_num)),
      Nat.mul_mod_left, digitsFix_zero,
      show 62 - 2 * k = (56 - 2 * k) + 6 by omega, digitsFix_split,
      Nat.div_eq_of_lt hB6, Nat.mod_eq_of_lt hB6, digitsFix_zero,
      show 56 - 2 * k = 2 * (28 - k) by omega, List.append_assoc]
  have hstrip0 : stripPairs ((fmt064x (B * 16 ^ (2 * k))).drop 2) =
      stripPairs (digitsFix 6 B ++ List.replicate (2 * k) 0) := by
    rw [fmt064x_drop2 _ ht62, hdig, stripPairs_replicate]
    simp [digitsFix_length]
  rw [hsh]
  simp only [target_to_bits]
  rw [hstrip0]
  by_cases hBbig : 16 ^ 4 ≤ B
  · have hsplit6 : digitsFix 6 B = digitsFix 2 (B / 16 ^ 4) ++ digitsFix 4 (B % 16 ^ 4) := by
      rw [show (6 : Nat) = 2 + 4 from rfl, digitsFix_split]
    have hm1 : 1 ≤ B / 16 ^ 4 := (Nat.one_le_div_iff (by norm_num)).mpr hBbig
    have hm2 : B / 16 ^ 4 < 256 := by
      rw [Nat.div_lt_iff_lt_mul (by norm_num)]
      omega
    have htk : (digitsFix 6 B ++ List.replicate (2 * k) 0).take 2 =
        digitsFix 2 (B / 16 ^ 4) := by
      rw [hsplit6, List.append_assoc]
      exact List.take_left' (digitsFix_length 2 _)
    have hstop : stripPairs (digitsFix 6 B ++ List.replicate (2 * k) 0) =
        digitsFix 6 B ++ List.replicate (2 * k) 0 := by
      apply stripPairs_stop
      intro hcon
      rw [htk, digitsFix_two] at hcon
      have h1 := hcon.1
      simp only [List.cons.injEq, and_true] at h1
      omega
    rw [hstop]
    have hlen : (digitsFix 6 B ++ List.replicate (2 * k) 0).length = 6 + 2 * k := by
      simp [digitsFix_length]
    have htake6 : (digitsFix 6 B ++ List.replicate (2 * k) 0).take 6 = digitsFix 6 B :=
      List.take_left' (digitsFix_length 6 B)
    rw [hlen, htake6, valHexBE_digitsFix, Nat.mod_eq_of_lt hB6]
    rw [if_neg (by omega)]
    rw [show (6 + 2 * k) / 2 = k + 3 by omega]
  · have hBsm : B < 16 ^ 4 := by omega
    have hsplit6 : digitsFix 6 B = List.replicate 2 0 ++ digitsFix 4 B := by
      rw [show (6 : Nat) = 2 + 4 from rfl, digitsFix_split,
        Nat.div_eq_of_lt hBsm, Nat.mod_eq_of_lt hBsm, digitsFix_zero]
    by_cases hk0 : k = 0
    · subst hk0
      have hc : digitsFix 6 B ++ List.replicate (2 * 0) 0 = digitsFix 6 B := by simp
      rw [hc]
      have hstop : stripPairs (digitsFix 6 B) = digitsFix 6 B := by
        apply stripPairs_stop
        intro hcon
        have := hcon.2
        rw [digitsFix_length] at this
        omega
      rw [hstop, digitsFix_length]
      have htake : (digitsFix 6 B).take 6 = digitsFix 6 B :=
        List.take_of_length_le (by rw [digitsFix_length])
      rw [htake, valHexBE_digitsFix, Nat.mod_eq_of_lt hB6]
      rw [if_neg (by omega)]
    · have hk1 : 1 ≤ k := by omega
      have hstep : stripPairs (digitsFix 6 B ++ List.replicate (2 * k) 0) =
          stripPairs (digitsFix 4 B ++ List.replicate (2 * k) 0) := by
        rw [hsplit6, List.append_assoc,
          show (2 : Nat) = 2 * 1 by ring]
        exact stripPairs_replicate 1 _ (by simp [digitsFix_length]; omega)
      have hsplit4 : digitsFix 4 B = digitsFix 2 (B / 16 ^ 2) ++ digitsFix 2 (B % 16 ^ 2) := by
        rw [show (4 : Nat) = 2 + 2 from rfl, digitsFix_split]
      have hm1 : 128 ≤ B / 16 ^ 2 := by
        rw [Nat.le_div_iff_mul_le (by norm_num)]
        omega
      have hm2 : B / 16 ^ 2 < 256 := by
        rw [Nat.div_lt_iff_lt_mul (by norm_num)]
        omega
      have htk : (digitsFix 4 B ++ List.replicate (2 * k) 0).take 2 =
          digitsFix 2 (B / 16 ^ 2) := by
        rw [hsplit4, List.append_assoc]
        exact List.take_left' (digitsFix_length 2 _)
      have hstop : stripPairs (digitsFix 4 B ++ List.replicate (2 * k) 0) =
          digitsFix 4 B ++ List.replicate (2 * k) 0 := by
        apply stripPairs_stop
        intro hcon
        rw [htk, digitsFix_two] at hcon
        have h1 := hcon.1
        simp only [List.cons.injEq, and_true] at h1
        omega
      rw [hstep, hstop]
      have hlen : (digitsFix 4 B ++ List.replicate (2 * k) 0).length = 4 + 2 * k := by
        simp [digitsFix_length]
      have htake6 : (digitsFix 4 B ++ List.replicate (2 * k) 0).take 6 =
          digitsFix 4 B ++ List.replicate 2 0 := by
        rw [List.take_append_eq_append_take,
          List.take_of_length_le (by rw [digitsFix_length]; omega),
          digitsFix_length, List.take_replicate,
          show min (6 - 4) (2 * k) = 2 by omega]
      rw [hlen, htake6, valHexBE_append_replicate, valHexBE_digitsFix,
        Nat.mod_eq_of_lt hBsm, show (16 : Nat) ^ 2 = 256 by norm_num]
      rw [if_pos (by omega)]
      have hdiv : (B * 256) >>> 8 = B := by
        rw [Nat.shiftRight_eq_div_pow, show (2 : Nat) ^ 8 = 256 by norm_num]
        exact Nat.mul_div_cancel B (by norm_num)
      rw [hdiv, show (4 + 2 * k) / 2 + 1 = k + 3 by omega]

theorem shiftLeft24_lor (N B : Nat) (hB : B < 16777216) :
    (N <<< 24) ||| B = 16777216 * N + B := by
  apply Nat.eq_of_testBit_eq
  intro j
  rw [Nat.testBit_lor, Nat.testBit_shiftLeft]
  have hB' : B < 2 ^ 24 := hB
  rw [show (16777216 : Nat) = 2 ^ 24 from rfl,
    Nat.testBit_mul_pow_two_add N hB' j]
  by_cases h : j < 24
  · have : ¬ 24 ≤ j := by omega
    simp [h, this]
  · have h24 : 24 ≤ j := by omega
    have hble : B < 2 ^ j :=
      lt_of_lt_of_le hB' (Nat.pow_le_pow_right (by norm_num) h24)
    simp [h, h24, Nat.testBit_eq_false_of_lt hble]

theorem decode_lor_N (N B : Nat) (hN : N < 256) (hB : B < 16777216) :
    (((N <<< 24) ||| B) >>> 24) &&& 0xff = N := by
  rw [shiftLeft24_lor N B hB, Nat.shiftRight_eq_div_pow,
    show (2 : Nat) ^ 24 = 16777216 from rfl]
  have hdiv : (16777216 * N + B) / 16777216 = N := by
    rw [Nat.mul_add_div (by norm_num), Nat.div_eq_of_lt hB]
    omega
  rw [hdiv, show (0xff : Nat) = 2 ^ 8 - 1 from rfl,

    Nat.and_pow_two_sub_one_eq_mod]
  exact Nat.mod_eq_of_lt hN

theorem decode_lor_B (N B : Nat) (hB : B < 16777216) :
    ((N <<< 24) ||| B) &&& 0xffffff = B := by
  rw [shiftLeft24_lor N B hB,
    show (0xffffff : Nat) = 2 ^ 24 - 1 from rfl,
    Nat.and_pow_two_sub_one_eq_mod,
    show (16777216 : Nat) = 2 ^ 24 from rfl,
    Nat.mul_add_mod]
  exact Nat.mod_eq_of_lt hB

end Blockchain

/-- C7: for every compact bits value accepted by bits_to_target,
target_to_bits applied to the decoded target produces an equivalent
canonical compact encoding - decoding that encoding returns exactly the
original target. -/
theorem c7_target_to_bits_round_trip (bits t : Nat)
    (hbt : Blockchain.bits_to_target bits = .ok t) :
    Blockchain.bits_to_target (Blockchain.target_to_bits t) = .ok t := by
  simp only [Blockchain.bits_to_target] at hbt
  split at hbt
  · exact absurd hbt (by simp)
  · split at hbt
    · exact absurd hbt (by simp)
    · rename_i hc1 hc2
      rw [not_not] at hc1 hc2
      obtain ⟨hN1, hN2⟩ := hc1
      obtain ⟨hB1, hB2⟩ := hc2
      have ht : t = (bits &&& 0xffffff) <<< (8 * ((bits >>> 24 &&& 0xff) - 3)) :=
        (Except.ok.inj hbt).symm
      subst ht
      rw [Blockchain.target_to_bits_round _ _ hN1 hN2 hB1 hB2]
      simp only [Blockchain.bits_to_target]
      rw [Blockchain.decode_lor_N _ _ (by omega) (by omega),
        Blockchain.decode_lor_B _ _ (by omega)]
      rw [if_neg (by omega), if_neg (by omega)]

set_option maxRecDepth 4000 in
/-- Witness for C7: the round trip evaluated at the concrete compact value
0x1d00ffff. -/
theorem c7_witness :
    Blockchain.bits_to_target (Blockchain.target_to_bits (65535 <<< 208)) =
      .ok (65535 <<< 208) :=
  c7_target_to_bits_round_trip 0x1d00ffff (65535 <<< 208) (by decide)
